import Mathlib

/-!
Verification of `sparsembed/losses/flops.py`: the `FlopsScheduler` quadratic
warmup scheduler and the `Flops` regularization loss.

Real-valued quantities (Python floats) are modelled as rationals `ℚ`;
Python integers as `ℤ`.  Activation batches of shape `(batch, vocab)` are
modelled as lists of rows, each row a function `Fin d → ℚ` for vocabulary
size `d`.
-/

/-- State of `FlopsScheduler`: fields `_weight` (target weight), `weight`
(current weight, initialized to zero), `steps` (total ramp steps) and
`_step` (elapsed step count), exactly as in `FlopsScheduler.__init__`. -/
structure FlopsScheduler where
  _weight : ℚ
  weight : ℚ
  steps : ℤ
  _step : ℤ
  deriving DecidableEq, Repr

/-- `FlopsScheduler.__init__(weight, steps)`: `self._weight = weight`,
`self.weight = 0`, `self.steps = steps`, `self._step = 0`. -/
def FlopsScheduler.init (weight : ℚ) (steps : ℤ) : FlopsScheduler :=
  { _weight := weight, weight := 0, steps := steps, _step := 0 }

/-- `FlopsScheduler.step`: if `self._step >= self.steps` do nothing, else
increment `self._step` and set
`self.weight = self._weight * (self._step / self.steps) ** 2`
(Python true division, modelled as division in `ℚ`). -/
def FlopsScheduler.step (s : FlopsScheduler) : FlopsScheduler :=
  if s.steps ≤ s._step then s
  else { s with
          _step := s._step + 1,
          weight := s._weight * (((s._step + 1 : ℤ) : ℚ) / (s.steps : ℚ)) ^ 2 }

/-- `FlopsScheduler.get`: returns `self.weight`. -/
def FlopsScheduler.get (s : FlopsScheduler) : ℚ := s.weight

/-- `n` successive calls to `step()`. -/
def FlopsScheduler.stepN (s : FlopsScheduler) : ℕ → FlopsScheduler
  | 0 => s
  | n + 1 => (s.stepN n).step

section TorchOps

/-- A batch of activations: a list of rows, each of vocabulary size `d`. -/
abbrev Batch (d : ℕ) := List (Fin d → ℚ)

/-- `torch.cat([...], dim=0)`: concatenation along the batch dimension. -/
def torchCat {d : ℕ} (ls : List (Batch d)) : Batch d := ls.flatten

/-- `torch.abs` applied elementwise to a batch. -/
def torchAbs {d : ℕ} (xs : Batch d) : Batch d := xs.map (fun r j => |r j|)

/-- `torch.mean(xs, dim=0)`: per-dimension mean over the batch dimension. -/
def torchMeanDim0 {d : ℕ} (xs : Batch d) : Fin d → ℚ :=
  fun j => (xs.map (fun r => r j)).sum / (xs.length : ℚ)

/-- `torch.sum(v, dim=0)` of a vector of size `d`. -/
def torchSumVec {d : ℕ} (v : Fin d → ℚ) : ℚ := ∑ j : Fin d, v j

/-- `torch.clip(x, min=lo, max=hi) = min(max(x, lo), hi)`. -/
def torchClip (x lo hi : ℚ) : ℚ := min (max x lo) hi

end TorchOps

namespace Flops

/-- `Flops.__call__`, operation by operation:
`activations = torch.cat([anchor, positive, negative], dim=0)`;
`loss = torch.abs(threshold - torch.sum(torch.mean(torch.abs(activations), dim=0) ** 2, dim=0))`;
`return torch.clip(loss, min=0.0, max=max_loss)`. -/
def call {d : ℕ} (anchor_activations positive_activations negative_activations : Batch d)
    (threshold : ℚ := 30) (max_loss : ℚ := 1) : ℚ :=
  let activations : Batch d :=
    torchCat [anchor_activations, positive_activations, negative_activations]
  let loss : ℚ :=
    |threshold - torchSumVec (fun j => (torchMeanDim0 (torchAbs activations) j) ^ 2)|
  torchClip loss 0 max_loss

end Flops

/-- The spec's description of the loss, transcribed from its words:
"Concatenates all three batches along the batch dimension, computes
per-dimension mean absolute activation across the concatenated batch,
squares it, sums across dimensions, subtracts from threshold, takes
absolute value, then clamps the result to [0, max_loss]." -/
def flopsSpec {d : ℕ} (anchor positive negative : Batch d)
    (threshold max_loss : ℚ) : ℚ :=
  let concatenated := anchor ++ positive ++ negative
  let meanAbs : Fin d → ℚ := fun j =>
    (concatenated.map (fun r => |r j|)).sum / (concatenated.length : ℚ)
  min (max |threshold - ∑ j : Fin d, (meanAbs j) ^ 2| 0) max_loss

namespace FlopsScheduler

/-- Closed form of the scheduler state after `k` calls to `step()` starting
from a fresh scheduler with at least one ramp step. -/
lemma stepN_init_closed (w : ℚ) (s : ℤ) (hs : 1 ≤ s) (k : ℕ) :
    (init w s).stepN k =
      { _weight := w,
        weight := w * (((min (k : ℤ) s : ℤ) : ℚ) / (s : ℚ)) ^ 2,
        steps := s,
        _step := min (k : ℤ) s } := by
  induction k with
  | zero =>
      have h0 : min (0 : ℤ) s = 0 := min_eq_left (by omega)
      simp [stepN, init, h0]
  | succ k ih =>
      rw [stepN, ih]
      by_cases h : s ≤ (k : ℤ)
      · have hmk : min (k : ℤ) s = s := min_eq_right h
        have hmk1 : min ((k : ℕ) + 1 : ℤ) s = s := min_eq_right (by omega)
        simp [step, hmk, hmk1]
      · have hmk : min ((k : ℕ) : ℤ) s = (k : ℤ) := min_eq_left (by omega)
        have hmk1 : min (((k + 1 : ℕ) : ℤ)) s = (k : ℤ) + 1 := by
          have hc : (((k + 1 : ℕ) : ℤ)) = (k : ℤ) + 1 := by push_cast; ring
          rw [hc]; exact min_eq_left (by omega)
        rw [hmk1]
        simp only [step, hmk]
        rw [if_neg (by omega)]

/-- A scheduler whose elapsed count has reached its total is a fixed point
of `step`, and hence of any number of further `step` calls. -/
lemma stepN_frozen (s : FlopsScheduler) (h : s.steps ≤ s._step) (n : ℕ) :
    s.stepN n = s := by
  induction n with
  | zero => rfl
  | succ n ih => rw [stepN, ih, step, if_pos h]

end FlopsScheduler

/-- Claim C3: a fresh scheduler returns weight 0 via `get()` before any
`step()`; after exactly `k` calls to `step()` with `1 ≤ k ≤ s` the elapsed
counter equals `k` and `get()` returns `w * (k / s) ^ 2`. -/
theorem C3_scheduler_ramp (w : ℚ) (s : ℤ) (k : ℕ)
    (hk1 : 1 ≤ k) (hks : (k : ℤ) ≤ s) :
    (FlopsScheduler.init w s).get = 0 ∧
    ((FlopsScheduler.init w s).stepN k)._step = (k : ℤ) ∧
    ((FlopsScheduler.init w s).stepN k).get = w * ((k : ℚ) / (s : ℚ)) ^ 2 := by
  have hs : (1 : ℤ) ≤ s := le_trans (by exact_mod_cast hk1) hks
  rw [FlopsScheduler.stepN_init_closed w s hs k]
  have hmin : min ((k : ℕ) : ℤ) s = (k : ℤ) := min_eq_left hks
  refine ⟨rfl, by simp [hmin], ?_⟩
  simp only [FlopsScheduler.get, hmin]
  push_cast
  ring

/-- Witness for C3 at `w = 5`, `s = 3`, `k = 2`. -/
theorem C3_scheduler_ramp_witness :
    ((FlopsScheduler.init 5 3).stepN 2).get = 5 * (((2 : ℕ) : ℚ) / ((3 : ℤ) : ℚ)) ^ 2 :=
  (C3_scheduler_ramp 5 3 2 (by decide) (by decide)).2.2

/-- Claim C4 counterexample: with a negative target weight `-1` and one ramp
step, the weight observed via `get()` strictly decreases from step 0 to
step 1, so the weight sequence is not monotonically non-decreasing for
every scheduler with `s ≥ 1`. -/
theorem C4_counterexample :
    ¬ (((FlopsScheduler.init (-1) 1).stepN 0).get ≤
        ((FlopsScheduler.init (-1) 1).stepN 1).get) := by
  have h1 : ((FlopsScheduler.init (-1) 1).stepN 1).get = -1 := by
    norm_num [FlopsScheduler.stepN, FlopsScheduler.step, FlopsScheduler.init,
      FlopsScheduler.get]
  have h0 : ((FlopsScheduler.init (-1) 1).stepN 0).get = 0 := rfl
  rw [h0, h1]
  norm_num

/-- Claim C4 (amended: target weight nonnegative): for every scheduler with
nonnegative target weight `w` and total ramp steps `s ≥ 1`, the weights
observed via `get()` across successive `step()` calls are monotonically
non-decreasing, and constant once the elapsed count has reached `s`. -/
theorem C4_scheduler_monotone (w : ℚ) (hw : 0 ≤ w) (s : ℤ) (hs : 1 ≤ s) (k : ℕ) :
    ((FlopsScheduler.init w s).stepN k).get ≤
      ((FlopsScheduler.init w s).stepN (k + 1)).get ∧
    (s ≤ (k : ℤ) →
      ((FlopsScheduler.init w s).stepN (k + 1)).get =
        ((FlopsScheduler.init w s).stepN k).get) := by
  rw [FlopsScheduler.stepN_init_closed w s hs k,
      FlopsScheduler.stepN_init_closed w s hs (k + 1)]
  constructor
  · have h1 : (0 : ℚ) ≤ ((min ((k : ℕ) : ℤ) s : ℤ) : ℚ) := by
      have : (0 : ℤ) ≤ min ((k : ℕ) : ℤ) s := le_min (Int.ofNat_nonneg k) (by omega)
      exact_mod_cast this
    have h2 : ((min ((k : ℕ) : ℤ) s : ℤ) : ℚ) ≤ ((min (((k + 1 : ℕ)) : ℤ) s : ℤ) : ℚ) := by
      have : min ((k : ℕ) : ℤ) s ≤ min (((k + 1 : ℕ)) : ℤ) s := by omega
      exact_mod_cast this
    have hs' : (0 : ℚ) < (s : ℚ) := by
      have : (0 : ℤ) < s := by omega
      exact_mod_cast this
    have hdiv : ((min ((k : ℕ) : ℤ) s : ℤ) : ℚ) / (s : ℚ) ≤
        ((min (((k + 1 : ℕ)) : ℤ) s : ℤ) : ℚ) / (s : ℚ) :=
      div_le_div_of_nonneg_right h2 hs'.le
    have hdivnn : 0 ≤ ((min ((k : ℕ) : ℤ) s : ℤ) : ℚ) / (s : ℚ) :=
      div_nonneg h1 hs'.le
    exact mul_le_mul_of_nonneg_left (pow_le_pow_left₀ hdivnn hdiv 2) hw
  · intro hks
    have e1 : min ((k : ℕ) : ℤ) s = s := min_eq_right hks
    have e2 : min (((k + 1 : ℕ)) : ℤ) s = s := min_eq_right (by omega)
    simp only [FlopsScheduler.get]
    rw [e1, e2]

/-- Witness for the amended C4 at `w = 1`, `s = 2`, `k = 0`. -/
theorem C4_scheduler_monotone_witness :
    ((FlopsScheduler.init 1 2).stepN 0).get ≤ ((FlopsScheduler.init 1 2).stepN (0 + 1)).get :=
  (C4_scheduler_monotone 1 (by decide) 2 (by decide) 0).1

/-- Claim C5: after exactly `s ≥ 1` calls to `step()`, `get()` returns
`w * (s / s) ^ 2`, which equals the target weight `w` exactly. -/
theorem C5_scheduler_completion (w : ℚ) (s : ℕ) (hs : 1 ≤ s) :
    ((FlopsScheduler.init w (s : ℤ)).stepN s).get = w * ((s : ℚ) / (s : ℚ)) ^ 2 ∧
    ((FlopsScheduler.init w (s : ℤ)).stepN s).get = w := by
  have hs' : (1 : ℤ) ≤ (s : ℤ) := by exact_mod_cast hs
  rw [FlopsScheduler.stepN_init_closed w (s : ℤ) hs' s]
  have hmin : min ((s : ℕ) : ℤ) (s : ℤ) = (s : ℤ) := min_self _
  have hne : ((s : ℤ) : ℚ) ≠ 0 := by
    have : ((s : ℤ) : ℚ) > 0 := by exact_mod_cast (by omega : (0 : ℤ) < (s : ℤ))
    exact ne_of_gt this
  constructor
  · simp only [FlopsScheduler.get, hmin]
    push_cast
    ring
  · simp only [FlopsScheduler.get, hmin, div_self hne, one_pow, mul_one]

/-- Witness for C5 at `w = 3`, `s = 4`. -/
theorem C5_scheduler_completion_witness :
    ((FlopsScheduler.init 3 ((4 : ℕ) : ℤ)).stepN 4).get = 3 :=
  (C5_scheduler_completion 3 4 (by decide)).2

/-- Claim C6: once the elapsed step count has reached the configured total,
one further `step()` call, and indeed any number `n` of them, leaves the
entire scheduler state unchanged. -/
theorem C6_scheduler_frozen (s : FlopsScheduler) (h : s.steps ≤ s._step) (n : ℕ) :
    s.step = s ∧ s.stepN n = s := by
  refine ⟨?_, FlopsScheduler.stepN_frozen s h n⟩
  rw [FlopsScheduler.step, if_pos h]

/-- Witness for C6 with a scheduler whose elapsed count 3 exceeds its total 2. -/
theorem C6_scheduler_frozen_witness :
    (FlopsScheduler.mk 1 5 2 3).step = FlopsScheduler.mk 1 5 2 3 ∧
    (FlopsScheduler.mk 1 5 2 3).stepN 4 = FlopsScheduler.mk 1 5 2 3 :=
  C6_scheduler_frozen (FlopsScheduler.mk 1 5 2 3) (by decide) 4

/-- Claim C10: for a scheduler constructed with `steps ≤ 0`, every number of
`step()` calls leaves the state unchanged and `get()` returns 0 forever; the
divisor `steps` is never used since the ramp branch is never taken. -/
theorem C10_scheduler_no_ramp (w : ℚ) (s : ℤ) (hs : s ≤ 0) (n : ℕ) :
    (FlopsScheduler.init w s).stepN n = FlopsScheduler.init w s ∧
    ((FlopsScheduler.init w s).stepN n).get = 0 := by
  have h := FlopsScheduler.stepN_frozen (FlopsScheduler.init w s)
    (by simpa [FlopsScheduler.init] using hs) n
  exact ⟨h, by rw [h]; rfl⟩

/-- Witness for C10 at `w = 7`, `steps = 0`, `n = 3`. -/
theorem C10_scheduler_no_ramp_witness :
    (FlopsScheduler.init 7 0).stepN 3 = FlopsScheduler.init 7 0 ∧
    ((FlopsScheduler.init 7 0).stepN 3).get = 0 :=
  C10_scheduler_no_ramp 7 0 (by decide) 3

/-- Concatenating three batches with `torch.cat` is the two-fold list append. -/
lemma flatten_three {α : Type} (a p n : List α) :
    List.flatten [a, p, n] = a ++ p ++ n := by
  simp [List.append_assoc]

/-- The per-dimension mean of elementwise absolute values, written directly
over the underlying list. -/
lemma torchMeanDim0_abs_eq {d : ℕ} (xs : Batch d) (j : Fin d) :
    torchMeanDim0 (torchAbs xs) j =
      (xs.map (fun r => |r j|)).sum / (xs.length : ℚ) := by
  unfold torchMeanDim0 torchAbs
  rw [List.map_map, List.length_map]
  rfl

/-- The loss depends on the concatenated activations only through their
multiset: permuting the rows of the concatenation leaves the value unchanged. -/
lemma call_congr_perm {d : ℕ} {a p n a' p' n' : Batch d}
    (h : (a ++ p ++ n).Perm (a' ++ p' ++ n')) (t m : ℚ) :
    Flops.call a p n t m = Flops.call a' p' n' t m := by
  simp only [Flops.call, torchCat, flatten_three]
  have hmean : ∀ j : Fin d,
      torchMeanDim0 (torchAbs (a ++ p ++ n)) j =
        torchMeanDim0 (torchAbs (a' ++ p' ++ n')) j := by
    intro j
    rw [torchMeanDim0_abs_eq, torchMeanDim0_abs_eq]
    rw [List.Perm.sum_eq (h.map (fun r => |r j|)), h.length_eq]
  simp only [hmean]

/-- Claim C1: the loss call returns
`clamp(|threshold - Σ_j (mean_j |activations|)^2|, 0, max_loss)` computed over
the concatenation of the three batches, as the spec describes. -/
theorem C1_flops_refines_spec {d : ℕ} (a p n : Batch d) (t m : ℚ) :
    Flops.call a p n t m = flopsSpec a p n t m := by
  simp only [Flops.call, flopsSpec, torchCat, flatten_three, torchSumVec,
    torchClip, torchMeanDim0_abs_eq]

/-- Claim C2 counterexample: with `max_loss = -1` the returned value is `-1`,
which does not lie in `[0, max_loss]` (it is negative), so the output is not
always within `[0, max_loss]` for every `max_loss`. -/
theorem C2_counterexample :
    ¬ (0 ≤ Flops.call (d := 1) [fun _ => 0] [fun _ => 0] [fun _ => 0] 0 (-1) ∧
       Flops.call (d := 1) [fun _ => 0] [fun _ => 0] [fun _ => 0] 0 (-1) ≤ -1) := by
  have hval : Flops.call (d := 1) [fun _ => 0] [fun _ => 0] [fun _ => 0] 0 (-1) = -1 := by
    simp [Flops.call, torchCat, torchAbs, torchMeanDim0, torchSumVec, torchClip]
  rw [hval]
  norm_num

/-- Claim C2 (amended: nonnegative `max_loss`): for every input batches,
threshold and `max_loss ≥ 0`, the returned scalar lies in `[0, max_loss]`. -/
theorem C2_flops_range {d : ℕ} (a p n : Batch d) (t m : ℚ) (hm : 0 ≤ m) :
    0 ≤ Flops.call a p n t m ∧ Flops.call a p n t m ≤ m := by
  simp only [Flops.call, torchClip]
  exact ⟨le_min (le_max_right _ _) hm, min_le_right _ _⟩

/-- Witness for the amended C2 on concrete one-dimensional batches. -/
theorem C2_flops_range_witness :
    0 ≤ Flops.call (d := 1) [fun _ => 3] [fun _ => 4] [fun _ => 5] 30 1 ∧
    Flops.call (d := 1) [fun _ => 3] [fun _ => 4] [fun _ => 5] 30 1 ≤ 1 :=
  C2_flops_range _ _ _ 30 1 (by decide)

/-- Claim C7: for batches of equal size, every permutation of the order in
which the three batches are concatenated gives the same loss. -/
theorem C7_flops_perm_equal_sizes {d : ℕ} (a p n : Batch d) (t m : ℚ)
    (h1 : a.length = p.length) (h2 : p.length = n.length) :
    Flops.call a p n t m = Flops.call a n p t m ∧
    Flops.call a p n t m = Flops.call p a n t m ∧
    Flops.call a p n t m = Flops.call p n a t m ∧
    Flops.call a p n t m = Flops.call n a p t m ∧
    Flops.call a p n t m = Flops.call n p a t m := by
  refine ⟨?_, ?_, ?_, ?_, ?_⟩ <;>
  · apply call_congr_perm _ t m
    rw [← Multiset.coe_eq_coe]
    simp only [← Multiset.coe_add]
    ac_rfl

/-- Witness for C7 on concrete equal-size one-dimensional batches. -/
theorem C7_flops_perm_equal_sizes_witness :
    Flops.call (d := 1) [fun _ => 1] [fun _ => 2] [fun _ => 3] 30 1 =
      Flops.call (d := 1) [fun _ => 1] [fun _ => 3] [fun _ => 2] 30 1 :=
  (C7_flops_perm_equal_sizes (d := 1) [fun _ => 1] [fun _ => 2] [fun _ => 3] 30 1 rfl rfl).1

/-- Claim C8: for batches of arbitrary (possibly different) sizes, every
permutation of the order of the three batches gives the same loss: the
per-dimension mean over the concatenation is order-independent. -/
theorem C8_flops_perm_any_sizes {d : ℕ} (a p n : Batch d) (t m : ℚ) :
    Flops.call a p n t m = Flops.call a n p t m ∧
    Flops.call a p n t m = Flops.call p a n t m ∧
    Flops.call a p n t m = Flops.call p n a t m ∧
    Flops.call a p n t m = Flops.call n a p t m ∧
    Flops.call a p n t m = Flops.call n p a t m := by
  refine ⟨?_, ?_, ?_, ?_, ?_⟩ <;>
  · apply call_congr_perm _ t m
    rw [← Multiset.coe_eq_coe]
    simp only [← Multiset.coe_add]
    ac_rfl

/-- Claim C9: replacing each input batch by its elementwise absolute value
leaves the loss unchanged, since the computation only sees `|activations|`;
the spec's non-negativity precondition is not needed. -/
theorem C9_flops_abs_invariant {d : ℕ} (a p n : Batch d) (t m : ℚ) :
    Flops.call (torchAbs a) (torchAbs p) (torchAbs n) t m = Flops.call a p n t m := by
  simp only [Flops.call, torchCat, flatten_three]
  have hmean : ∀ j : Fin d,
      torchMeanDim0 (torchAbs (torchAbs a ++ torchAbs p ++ torchAbs n)) j =
        torchMeanDim0 (torchAbs (a ++ p ++ n)) j := by
    intro j
    rw [torchMeanDim0_abs_eq, torchMeanDim0_abs_eq]
    simp only [List.map_append, List.map_map, List.length_append, List.length_map]
    simp [torchAbs, List.map_map, Function.comp_def, abs_abs]
  simp only [hmean]
